import Mathlib

set_option maxRecDepth 100000

/-
Verification of the Mochimo proof-of-work cores (trigg.c, peach.c).

The development shallowly embeds the two C source files:

  * trigg.c  - the grammar-constrained nonce generator (Dict, Frame,
               trigg_gen, trigg_expand, trigg_syntax) and the
               difficulty evaluator trigg_eval;
  * peach.c  - the memory-hard layer (peach_dflop, peach_dmemtx,
               peach_nighthash, peach_next, tile generation,
               peach_solve, peach_generate, peach_checkhash).

Bytes are modelled as Nat values below 256, buffers as List Nat, and all
32-bit arithmetic wraps explicitly modulo 2^32.  The seven cryptographic
hash primitives live outside these two files (external collaborators with
a fixed byte contract), and the IEEE-754 single-precision lane operation
of peach_dflop is not shallowly embeddable; both are therefore abstracted
as function parameters, while every byte-shuffling step around them is
embedded exactly as written in the source.
-/

namespace Mochimo

/-! ## Dictionary and frames (trigg.c lines 180-523) -/

/-- Dictionary entry with semantic grammar features: a word token of at
most 12 bytes and a 32-bit feature mask (struct DICT in trigg.c). -/
structure DICT where
  tok : List Nat
  fe : Nat
deriving Repr, DecidableEq

/-- First quarter of the 256 dictionary entries of trigg.c, byte-for-byte:
each token is given as its byte values (0x08 backspace and 0x0A newline
included).  The table is split in four to keep elaboration tractable. -/
def dictEntries0 : List DICT := [
  ⟨[78, 73, 76], 0⟩,
  ⟨[10], 16384⟩,
  ⟨[8, 58], 16384⟩,
  ⟨[8, 45, 45], 16384⟩,
  ⟨[108, 105, 107, 101], 16384⟩,
  ⟨[97], 16384⟩,
  ⟨[116, 104, 101], 16384⟩,
  ⟨[111, 102], 16384⟩,
  ⟨[110, 111], 16384⟩,
  ⟨[8, 115], 16384⟩,
  ⟨[97, 102, 116, 101, 114], 16384⟩,
  ⟨[98, 101, 102, 111, 114, 101], 16384⟩,
  ⟨[97, 116], 4096⟩,
  ⟨[105, 110], 4096⟩,
  ⟨[111, 110], 4096⟩,
  ⟨[117, 110, 100, 101, 114], 4096⟩,
  ⟨[97, 98, 111, 118, 101], 4096⟩,
  ⟨[98, 101, 108, 111, 119], 4096⟩,
  ⟨[97, 114, 114, 105, 118, 105, 110, 103], 5⟩,
  ⟨[100, 101, 112, 97, 114, 116, 105, 110, 103], 5⟩,
  ⟨[103, 111, 105, 110, 103], 5⟩,
  ⟨[99, 111, 109, 105, 110, 103], 5⟩,
  ⟨[99, 114, 101, 101, 112, 105, 110, 103], 5⟩,
  ⟨[100, 97, 110, 99, 105, 110, 103], 5⟩,
  ⟨[114, 105, 100, 105, 110, 103], 5⟩,
  ⟨[115, 116, 114, 117, 116, 116, 105, 110, 103], 5⟩,
  ⟨[108, 101, 97, 112, 105, 110, 103], 5⟩,
  ⟨[108, 101, 97, 118, 105, 110, 103], 5⟩,
  ⟨[101, 110, 116, 101, 114, 105, 110, 103], 5⟩,
  ⟨[100, 114, 105, 102, 116, 105, 110, 103], 5⟩,
  ⟨[114, 101, 116, 117, 114, 110, 105, 110, 103], 5⟩,
  ⟨[114, 105, 115, 105, 110, 103], 5⟩,
  ⟨[102, 97, 108, 108, 105, 110, 103], 5⟩,
  ⟨[114, 117, 115, 104, 105, 110, 103], 5⟩,
  ⟨[115, 111, 97, 114, 105, 110, 103], 5⟩,
  ⟨[116, 114, 97, 118, 101, 108, 108, 105, 110, 103], 5⟩,
  ⟨[116, 117, 114, 110, 105, 110, 103], 5⟩,
  ⟨[115, 105, 110, 103, 105, 110, 103], 5⟩,
  ⟨[119, 97, 108, 107, 105, 110, 103], 5⟩,
  ⟨[99, 114, 121, 105, 110, 103], 1⟩,
  ⟨[119, 101, 101, 112, 105, 110, 103], 1⟩,
  ⟨[108, 105, 110, 103, 101, 114, 105, 110, 103], 1⟩,
  ⟨[112, 97, 117, 115, 105, 110, 103], 1⟩,
  ⟨[115, 104, 105, 110, 105, 110, 103], 1⟩,
  ⟨[102, 97, 108, 108], 6⟩,
  ⟨[102, 108, 111, 119], 6⟩,
  ⟨[119, 97, 110, 100, 101, 114], 6⟩,
  ⟨[100, 105, 115, 97, 112, 112, 101, 97, 114], 6⟩,
  ⟨[119, 97, 105, 116], 2⟩,
  ⟨[98, 108, 111, 111, 109], 2⟩,
  ⟨[100, 111, 122, 101], 2⟩,
  ⟨[100, 114, 101, 97, 109], 2⟩,
  ⟨[108, 97, 117, 103, 104], 2⟩,
  ⟨[109, 101, 100, 105, 116, 97, 116, 101], 2⟩,
  ⟨[108, 105, 115, 116, 101, 110], 2⟩,
  ⟨[115, 105, 110, 103], 2⟩,
  ⟨[100, 101, 99, 97, 121], 2⟩,
  ⟨[99, 108, 105, 110, 103], 2⟩,
  ⟨[103, 114, 111, 119], 2⟩,
  ⟨[102, 111, 114, 103, 101, 116], 2⟩,
  ⟨[114, 101, 109, 97, 105, 110], 2⟩,
  ⟨[97, 114, 105, 100], 8192⟩,
  ⟨[97, 98, 97, 110, 100, 111, 110, 101, 100], 8192⟩,
  ⟨[97, 103, 101, 100], 8192⟩]

def dictEntries1 : List DICT := [
  ⟨[97, 110, 99, 105, 101, 110, 116], 8192⟩,
  ⟨[102, 117, 108, 108], 8192⟩,
  ⟨[103, 108, 111, 114, 105, 111, 117, 115], 8192⟩,
  ⟨[103, 111, 111, 100], 8192⟩,
  ⟨[98, 101, 97, 117, 116, 105, 102, 117, 108], 8192⟩,
  ⟨[102, 105, 114, 115, 116], 8192⟩,
  ⟨[108, 97, 115, 116], 8192⟩,
  ⟨[102, 111, 114, 115, 97, 107, 101, 110], 8192⟩,
  ⟨[115, 97, 100], 8192⟩,
  ⟨[109, 97, 110, 100, 97, 114, 105, 110], 8192⟩,
  ⟨[110, 97, 107, 101, 100], 8192⟩,
  ⟨[110, 97, 109, 101, 108, 101, 115, 115], 8192⟩,
  ⟨[111, 108, 100], 8192⟩,
  ⟨[113, 117, 105, 101, 116], 8256⟩,
  ⟨[112, 101, 97, 99, 101, 102, 117, 108], 8192⟩,
  ⟨[115, 116, 105, 108, 108], 8192⟩,
  ⟨[116, 114, 97, 110, 113, 117, 105, 108], 8192⟩,
  ⟨[98, 97, 114, 101], 8192⟩,
  ⟨[101, 118, 101, 110, 105, 110, 103], 8320⟩,
  ⟨[109, 111, 114, 110, 105, 110, 103], 8320⟩,
  ⟨[97, 102, 116, 101, 114, 110, 111, 111, 110], 8320⟩,
  ⟨[115, 112, 114, 105, 110, 103], 8448⟩,
  ⟨[115, 117, 109, 109, 101, 114], 8448⟩,
  ⟨[97, 117, 116, 117, 109, 110], 8448⟩,
  ⟨[119, 105, 110, 116, 101, 114], 8448⟩,
  ⟨[98, 114, 111, 107, 101, 110], 8192⟩,
  ⟨[116, 104, 105, 99, 107], 8192⟩,
  ⟨[116, 104, 105, 110], 8192⟩,
  ⟨[108, 105, 116, 116, 108, 101], 8192⟩,
  ⟨[98, 105, 103], 8192⟩,
  ⟨[112, 97, 114, 99, 104, 101, 100], 8256⟩,
  ⟨[119, 105, 116, 104, 101, 114, 101, 100], 8256⟩,
  ⟨[119, 111, 114, 110], 8256⟩,
  ⟨[115, 111, 102, 116], 8192⟩,
  ⟨[98, 105, 116, 116, 101, 114], 8192⟩,
  ⟨[98, 114, 105, 103, 104, 116], 8192⟩,
  ⟨[98, 114, 105, 108, 108, 105, 97, 110, 116], 8192⟩,
  ⟨[99, 111, 108, 100], 8192⟩,
  ⟨[99, 111, 111, 108], 8192⟩,
  ⟨[99, 114, 105, 109, 115, 111, 110], 8192⟩,
  ⟨[100, 97, 114, 107], 8192⟩,
  ⟨[102, 114, 111, 122, 101, 110], 8192⟩,
  ⟨[103, 114, 101, 121], 8192⟩,
  ⟨[104, 97, 114, 100], 8192⟩,
  ⟨[104, 111, 116], 8192⟩,
  ⟨[115, 99, 97, 114, 108, 101, 116], 8192⟩,
  ⟨[115, 104, 97, 108, 108, 111, 119], 8192⟩,
  ⟨[115, 104, 97, 114, 112], 8192⟩,
  ⟨[119, 97, 114, 109], 8192⟩,
  ⟨[99, 108, 111, 115, 101], 8192⟩,
  ⟨[99, 97, 108, 109], 8192⟩,
  ⟨[99, 114, 117, 101, 108], 8192⟩,
  ⟨[100, 114, 111, 119, 110, 101, 100], 8192⟩,
  ⟨[100, 117, 108, 108], 8192⟩,
  ⟨[100, 101, 97, 100], 8192⟩,
  ⟨[115, 105, 99, 107], 8192⟩,
  ⟨[100, 101, 101, 112], 8192⟩,
  ⟨[102, 97, 115, 116], 8192⟩,
  ⟨[102, 108, 101, 101, 116, 105, 110, 103], 8192⟩,
  ⟨[102, 114, 97, 103, 114, 97, 110, 116], 8192⟩,
  ⟨[102, 114, 101, 115, 104], 8192⟩,
  ⟨[108, 111, 117, 100], 8192⟩,
  ⟨[109, 111, 111, 110, 108, 105, 116], 8256⟩,
  ⟨[115, 97, 99, 114, 101, 100], 8192⟩]

def dictEntries2 : List DICT := [
  ⟨[115, 108, 111, 119], 8192⟩,
  ⟨[116, 114, 97, 118, 101, 108, 108, 101, 114], 8⟩,
  ⟨[112, 111, 101, 116], 8⟩,
  ⟨[98, 101, 103, 103, 97, 114], 8⟩,
  ⟨[109, 111, 110, 107], 8⟩,
  ⟨[119, 97, 114, 114, 105, 111, 114], 8⟩,
  ⟨[119, 105, 102, 101], 8⟩,
  ⟨[99, 111, 117, 114, 116, 101, 115, 97, 110], 8⟩,
  ⟨[100, 97, 110, 99, 101, 114], 8⟩,
  ⟨[100, 97, 101, 109, 111, 110], 8⟩,
  ⟨[102, 114, 111, 103], 8⟩,
  ⟨[104, 97, 119, 107, 115], 16⟩,
  ⟨[108, 97, 114, 107, 115], 16⟩,
  ⟨[99, 114, 97, 110, 101, 115], 16⟩,
  ⟨[99, 114, 111, 119, 115], 16⟩,
  ⟨[100, 117, 99, 107, 115], 16⟩,
  ⟨[98, 105, 114, 100, 115], 16⟩,
  ⟨[115, 107, 121, 108, 97, 114, 107], 8⟩,
  ⟨[115, 112, 97, 114, 114, 111, 119, 115], 16⟩,
  ⟨[109, 105, 110, 110, 111, 119, 115], 16⟩,
  ⟨[115, 110, 97, 107, 101, 115], 16⟩,
  ⟨[100, 111, 103], 8⟩,
  ⟨[109, 111, 110, 107, 101, 121, 115], 16⟩,
  ⟨[99, 97, 116, 115], 16⟩,
  ⟨[99, 117, 99, 107, 111, 111, 115], 16⟩,
  ⟨[109, 105, 99, 101], 16⟩,
  ⟨[100, 114, 97, 103, 111, 110, 102, 108, 121], 8⟩,
  ⟨[98, 117, 116, 116, 101, 114, 102, 108, 121], 8⟩,
  ⟨[102, 105, 114, 101, 102, 108, 121], 8⟩,
  ⟨[103, 114, 97, 115, 115, 104, 111, 112, 112, 101, 114], 8⟩,
  ⟨[109, 111, 115, 113, 117, 105, 116, 111, 115], 16⟩,
  ⟨[116, 114, 101, 101, 115], 2576⟩,
  ⟨[114, 111, 115, 101, 115], 16⟩,
  ⟨[99, 104, 101, 114, 114, 105, 101, 115], 16⟩,
  ⟨[102, 108, 111, 119, 101, 114, 115], 16⟩,
  ⟨[108, 111, 116, 117, 115, 101, 115], 16⟩,
  ⟨[112, 108, 117, 109, 115], 16⟩,
  ⟨[112, 111, 112, 112, 105, 101, 115], 16⟩,
  ⟨[118, 105, 111, 108, 101, 116, 115], 16⟩,
  ⟨[111, 97, 107, 115], 528⟩,
  ⟨[112, 105, 110, 101, 115], 528⟩,
  ⟨[99, 104, 101, 115, 116, 110, 117, 116, 115], 16⟩,
  ⟨[99, 108, 111, 118, 101, 114, 115], 16⟩,
  ⟨[108, 101, 97, 118, 101, 115], 16⟩,
  ⟨[112, 101, 116, 97, 108, 115], 16⟩,
  ⟨[116, 104, 111, 114, 110, 115], 16⟩,
  ⟨[98, 108, 111, 115, 115, 111, 109, 115], 16⟩,
  ⟨[118, 105, 110, 101, 115], 16⟩,
  ⟨[119, 105, 108, 108, 111, 119, 115], 16⟩,
  ⟨[109, 111, 117, 110, 116, 97, 105, 110], 1544⟩,
  ⟨[109, 111, 111, 114], 3592⟩,
  ⟨[115, 101, 97], 3592⟩,
  ⟨[115, 104, 97, 100, 111, 119], 2056⟩,
  ⟨[115, 107, 105, 101, 115], 2064⟩,
  ⟨[109, 111, 111, 110], 8⟩,
  ⟨[115, 116, 97, 114], 8⟩,
  ⟨[115, 116, 111, 110, 101], 8⟩,
  ⟨[99, 108, 111, 117, 100], 8⟩,
  ⟨[98, 114, 105, 100, 103, 101], 1544⟩,
  ⟨[103, 97, 116, 101], 520⟩,
  ⟨[116, 101, 109, 112, 108, 101], 2568⟩,
  ⟨[104, 111, 118, 101, 108], 2568⟩,
  ⟨[102, 111, 114, 101, 115, 116], 2568⟩,
  ⟨[103, 114, 97, 118, 101], 3592⟩]

def dictEntries3 : List DICT := [
  ⟨[115, 116, 114, 101, 97, 109], 3592⟩,
  ⟨[112, 111, 110, 100], 3592⟩,
  ⟨[105, 115, 108, 97, 110, 100], 1544⟩,
  ⟨[98, 101, 108, 108], 8⟩,
  ⟨[98, 111, 97, 116], 3080⟩,
  ⟨[115, 97, 105, 108, 98, 111, 97, 116], 3080⟩,
  ⟨[98, 111, 110, 32, 102, 105, 114, 101], 520⟩,
  ⟨[115, 116, 114, 97, 119, 32, 109, 97, 116], 1032⟩,
  ⟨[99, 117, 112], 2056⟩,
  ⟨[110, 101, 115, 116], 2056⟩,
  ⟨[115, 117, 110], 2056⟩,
  ⟨[118, 105, 108, 108, 97, 103, 101], 2056⟩,
  ⟨[116, 111, 109, 98], 2568⟩,
  ⟨[114, 97, 105, 110, 100, 114, 111, 112], 2056⟩,
  ⟨[119, 97, 118, 101], 2056⟩,
  ⟨[119, 105, 110, 100], 2056⟩,
  ⟨[116, 105, 100, 101], 2568⟩,
  ⟨[102, 97, 110], 8⟩,
  ⟨[104, 97, 116], 8⟩,
  ⟨[115, 97, 110, 100, 97, 108], 8⟩,
  ⟨[115, 104, 114, 111, 117, 100], 8⟩,
  ⟨[112, 111, 108, 101], 8⟩,
  ⟨[119, 97, 116, 101, 114], 3168⟩,
  ⟨[97, 105, 114], 3168⟩,
  ⟨[109, 117, 100], 3168⟩,
  ⟨[114, 97, 105, 110], 2144⟩,
  ⟨[116, 104, 117, 110, 100, 101, 114], 2144⟩,
  ⟨[105, 99, 101], 3168⟩,
  ⟨[115, 110, 111, 119], 3168⟩,
  ⟨[115, 97, 108, 116], 3104⟩,
  ⟨[104, 97, 105, 108], 2144⟩,
  ⟨[109, 105, 115, 116], 2144⟩,
  ⟨[100, 101, 119], 2144⟩,
  ⟨[102, 111, 97, 109], 2144⟩,
  ⟨[102, 114, 111, 115, 116], 2144⟩,
  ⟨[115, 109, 111, 107, 101], 2144⟩,
  ⟨[116, 119, 105, 108, 105, 103, 104, 116], 2656⟩,
  ⟨[101, 97, 114, 116, 104], 3104⟩,
  ⟨[103, 114, 97, 115, 115], 3104⟩,
  ⟨[98, 97, 109, 98, 111, 111], 32⟩,
  ⟨[103, 111, 108, 100], 32⟩,
  ⟨[103, 114, 97, 105, 110], 32⟩,
  ⟨[114, 105, 99, 101], 32⟩,
  ⟨[116, 101, 97], 2080⟩,
  ⟨[108, 105, 103, 104, 116], 2144⟩,
  ⟨[100, 97, 114, 107, 110, 101, 115, 115], 2144⟩,
  ⟨[102, 105, 114, 101, 108, 105, 103, 104, 116], 2144⟩,
  ⟨[115, 117, 110, 108, 105, 103, 104, 116], 2144⟩,
  ⟨[115, 117, 110, 115, 104, 105, 110, 101], 2144⟩,
  ⟨[106, 111, 117, 114, 110, 101, 121], 1032⟩,
  ⟨[115, 101, 114, 101, 110, 105, 116, 121], 32⟩,
  ⟨[100, 117, 115, 107], 128⟩,
  ⟨[103, 108, 111, 119], 8⟩,
  ⟨[115, 99, 101, 110, 116], 8⟩,
  ⟨[115, 111, 117, 110, 100], 8⟩,
  ⟨[115, 105, 108, 101, 110, 99, 101], 8⟩,
  ⟨[118, 111, 105, 99, 101], 8⟩,
  ⟨[100, 97, 121], 136⟩,
  ⟨[110, 105, 103, 104, 116], 136⟩,
  ⟨[115, 117, 110, 114, 105, 115, 101], 136⟩,
  ⟨[115, 117, 110, 115, 101, 116], 136⟩,
  ⟨[109, 105, 100, 110, 105, 103, 104, 116], 136⟩,
  ⟨[101, 113, 117, 105, 110, 111, 120], 264⟩,
  ⟨[110, 111, 111, 110], 136⟩]

/-- All 256 dictionary entries in order. -/
def dictEntries : List DICT :=
  dictEntries0 ++ dictEntries1 ++ dictEntries2 ++ dictEntries3

/-- Dict[i] for a byte index i (the C array is indexed by a uint8_t). -/
def Dict (i : Nat) : DICT :=
  dictEntries.getD i ⟨[], 0⟩

/-- Feature mask of dictionary entry i. -/
def DictFe (i : Nat) : Nat :=
  (Dict i).fe

/-- Token bytes of dictionary entry i. -/
def DictTok (i : Nat) : List Nat :=
  (Dict i).tok

/-- The 10 case frames of trigg.c, each padded with zeros to 16 slots as
the C initialiser does. -/
def Frame : List (List Nat) := [
  [4096, 8192, 32, 131073, 16, 131073, 3, 0, 0, 0, 0, 0, 0, 0, 0, 0],
  [4096, 32, 131073, 8192, 16, 131073, 3, 0, 0, 0, 0, 0, 0, 0, 0, 0],
  [4096, 128, 131073, 8192, 16, 131073, 3, 0, 0, 0, 0, 0, 0, 0, 0, 0],
  [4096, 128, 131073, 131077, 8, 131073, 1, 0, 0, 0, 0, 0, 0, 0, 0, 0],
  [384, 64, 131073, 4096, 131077, 8192, 8, 131075, 131073, 8193, 0, 0, 0, 0, 0, 0],
  [384, 64, 131073, 8192, 32, 131073, 1, 0, 0, 0, 0, 0, 0, 0, 0, 0],
  [384, 32, 131073, 2, 131081, 131074, 131073, 64, 0, 0, 0, 0, 0, 0, 0, 0],
  [1, 4096, 131077, 8192, 8, 131073, 32, 1, 131075, 131073, 131077, 8192, 8, 0, 0, 0],
  [1, 4096, 384, 32, 131073, 32, 1, 131075, 131073, 131077, 8192, 8, 0, 0, 0, 0],
  [131077, 8, 131073, 4096, 128, 32, 131075, 131073, 8192, 0, 0, 0, 0, 0, 0, 0]]

/-! ## Haiku generation (trigg_gen, trigg.c lines 526-555)

The pseudo random number generator is external to the core (the spec
treats it as an arbitrary seedable PRNG), so trigg_gen is embedded as a
function of the stream of values returned by successive trigg_rand
calls.  The inner retry loop of trigg_gen consumes stream values until a
dictionary word matching the slot mask appears; an exhausted stream
yields none. -/

/-- Inner retry loop of trigg_gen: draw values r, take widx = r & 255,
until Dict[widx].fe intersects the slot mask. -/
def pickTok (slot : Nat) : List Nat → Option (Nat × List Nat)
  | [] => none
  | r :: rest =>
    if DictFe (r &&& 255) &&& slot ≠ 0 then some (r &&& 255, rest)
    else pickTok slot rest

/-- Slot loop of trigg_gen over the 16 frame slots: a zero slot emits a
zero byte, an XLIT slot emits the literal low byte of the slot, any other
slot draws words from the stream until one matches. -/
def genSlots : List Nat → List Nat → Option (List Nat)
  | [], _ => some []
  | slot :: ss, rands =>
    if slot = 0 then (genSlots ss rands).map (fun u => 0 :: u)
    else if slot &&& 131072 ≠ 0 then
      (genSlots ss rands).map (fun u => (slot &&& 255) :: u)
    else
      (pickTok slot rands).bind
        (fun wr => (genSlots ss wr.2).map (fun u => wr.1 :: u))

/-- trigg_gen: the first stream value selects the frame (mod NFRAMES),
then the 16 slots are filled. -/
def trigg_gen (rands : List Nat) : Option (List Nat) :=
  match rands with
  | [] => none
  | r :: rest => genSlots (Frame.getD (r % 10) []) rest

/-! ## Haiku expansion (trigg_expand, trigg.c lines 559-584) -/

/-- One step of trigg_expand: copy the token bytes of Dict[b] verbatim,
then append a space unless the last byte written so far is 0x0A.  (When
nothing has been written yet the C code reads the byte before the buffer;
that read never happens for inputs whose first token has a non-empty
word, which holds for every token array accepted by trigg_syntax.) -/
def expandStep (acc : List Nat) (b : Nat) : List Nat :=
  let acc' := acc ++ DictTok b
  if acc'.getLast? = some 10 then acc' else acc' ++ [32]

/-- Token walk of trigg_expand: stop at the first zero token byte. -/
def expandText (acc : List Nat) : List Nat → List Nat
  | [] => acc
  | b :: bs => if b = 0 then acc else expandText (expandStep acc b) bs

/-- trigg_expand: expanded text followed by a zero fill of the remainder
of the 256-byte haiku buffer. -/
def trigg_expand (tokens : List Nat) : List Nat :=
  let e := expandText [] tokens
  e ++ List.replicate (256 - e.length) 0

/-! ## Difficulty evaluation (trigg_eval, trigg.c lines 590-604) -/

/-- Coarse loop of trigg_eval: the first n bytes must be zero. -/
def zeroBytes : List Nat → Nat → Bool
  | _, 0 => true
  | [], _ + 1 => true
  | b :: bs, n + 1 => if b ≠ 0 then false else zeroBytes bs n

/-- trigg_eval: the diff parameter is a uint8_t in C, so callers' values
are reduced modulo 256 on entry.  After the coarse byte check, the fine
check masks the next byte with the int-promoted ~(0xff >> (diff & 7)),
which on a byte value below 256 equals the mask 255 ^^^ (255 >>> r). -/
def trigg_eval (hash : List Nat) (diff : Nat) : Bool :=
  let d := diff % 256
  let n := d >>> 3
  if zeroBytes hash n = false then false
  else if d &&& 7 = 0 then true
  else if (hash.getD n 0) &&& (255 ^^^ (255 >>> (d &&& 7))) ≠ 0 then false
  else true

/-! ## Haiku syntax check, trigg_syntax at trigg.c lines 663-692 -/

/-- Inner slot loop of trigg_syntax for one frame: a zero frame slot
succeeds exactly when the current token's feature mask is zero (the rest
of the token array is not inspected), an XLIT slot requires the literal
byte, and any other slot requires a feature intersection. -/
def checkSlots : List Nat → List Nat → Bool
  | [], _ => true
  | _ :: _, [] => true
  | slot :: ss, t :: ts =>
    if slot = 0 then decide (DictFe t = 0)
    else if slot &&& 131072 ≠ 0 then (slot &&& 255 = t) && checkSlots ss ts
    else (DictFe t &&& slot ≠ 0) && checkSlots ss ts

/-- trigg_syntax: unification of the 16 token bytes against each of the
10 frames in turn; success on any frame accepts. -/
def trigg_syntax (tokens : List Nat) : Bool :=
  Frame.any (fun row => checkSlots row tokens)

/-! ## Big-endian value of a byte list, and facts about trigg_eval -/

/-- Value of a byte list read big-endian (first byte most significant). -/
def beVal : List Nat → Nat
  | [] => 0
  | b :: bs => b * 256 ^ bs.length + beVal bs

theorem beVal_lt (l : List Nat) (h : ∀ b ∈ l, b < 256) :
    beVal l < 256 ^ l.length := by
  induction l with
  | nil => simp [beVal]
  | cons b bs ih =>
    have hb : b < 256 := h b (List.mem_cons_self b bs)
    have hbs : beVal bs < 256 ^ bs.length :=
      ih (fun x hx => h x (List.mem_cons_of_mem b hx))
    have hb' : b ≤ 255 := Nat.lt_succ_iff.mp hb
    have : b * 256 ^ bs.length ≤ 255 * 256 ^ bs.length :=
      Nat.mul_le_mul_right _ hb'
    simp only [beVal, List.length_cons, pow_succ]
    nlinarith [pow_pos (show 0 < 256 by norm_num) bs.length]

theorem beVal_append (l₁ l₂ : List Nat) :
    beVal (l₁ ++ l₂) = beVal l₁ * 256 ^ l₂.length + beVal l₂ := by
  induction l₁ with
  | nil => simp [beVal]
  | cons b bs ih =>
    simp only [List.cons_append, beVal, ih, List.append_eq,
      List.length_append, pow_add]
    ring

theorem beVal_eq_zero_iff (l : List Nat) :
    beVal l = 0 ↔ ∀ b ∈ l, b = 0 := by
  induction l with
  | nil => simp [beVal]
  | cons b bs ih =>
    have hp : 256 ^ bs.length ≠ 0 :=
      (pow_pos (show (0:Nat) < 256 by norm_num) _).ne'
    simp only [beVal, List.mem_cons, Nat.add_eq_zero, Nat.mul_eq_zero]
    constructor
    · rintro ⟨hb, hbs⟩ x hx
      rcases hx with rfl | hx'
      · rcases hb with hb | hb
        · exact hb
        · exact absurd hb hp
      · exact (ih.mp hbs) x hx'
    · intro hall
      exact ⟨Or.inl (hall b (Or.inl rfl)),
        ih.mpr fun x hx => hall x (Or.inr hx)⟩

theorem zeroBytes_iff (l : List Nat) (n : Nat) :
    zeroBytes l n = true ↔ ∀ b ∈ l.take n, b = 0 := by
  induction l generalizing n with
  | nil => cases n <;> simp [zeroBytes]
  | cons b bs ih =>
    cases n with
    | zero => simp [zeroBytes]
    | succ m =>
      by_cases hb : b = 0
      · subst hb; simp [zeroBytes, ih]
      · simp [zeroBytes, hb]

theorem getD_append_middle (A : List Nat) (m : Nat) (B : List Nat) :
    (A ++ m :: B).getD A.length 0 = m := by
  induction A with
  | nil => rfl
  | cons a as ih => simpa using ih

set_option maxRecDepth 100000 in
/-- Fine mask check of trigg_eval on a byte: the masked bits vanish
exactly when the byte is below 2^(8-r), for r in 1..7. -/
theorem land_mask_eq_zero_iff :
    ∀ r < 8, 1 ≤ r → ∀ m < 256,
      ((m &&& (255 ^^^ (255 >>> r)) = 0) ↔ m < 2 ^ (8 - r)) := by
  decide

/-- Claim C2: trigg_eval(h, d) returns 1 exactly when the 256-bit integer
obtained by parsing the 32-byte hash big-endian has at least d leading
zero bits, i.e. is below 2^(256-d); the first d/8 bytes must be zero and,
when d mod 8 is non-zero, the top d mod 8 bits of the next byte as well.
The difficulty parameter is a uint8_t, so d ranges over 0..255. -/
theorem trigg_eval_iff_leading_zeros (h : List Nat) (d : Nat)
    (hlen : h.length = 32) (hbytes : ∀ b ∈ h, b < 256) (hd : d < 256) :
    (trigg_eval h d = true ↔ beVal h < 2 ^ (256 - d)) := by
  have hd256 : d % 256 = d := Nat.mod_eq_of_lt hd
  have hshift : d >>> 3 = d / 8 := Nat.shiftRight_eq_div_pow d 3
  have hand : d &&& 7 = d % 8 := by
    have := Nat.and_pow_two_sub_one_eq_mod d 3
    norm_num at this
    exact this
  have hq8 : 8 * (d / 8) + d % 8 = d := Nat.div_add_mod d 8
  have hr8 : d % 8 < 8 := Nat.mod_lt _ (by norm_num)
  set q := d / 8 with hq
  set r := d % 8 with hr
  have hqle : q ≤ 31 := by omega
  -- split h at byte q
  have hsplit : h = h.take q ++ h.drop q := (List.take_append_drop q h).symm
  have hlenA : (h.take q).length = q := by
    rw [List.length_take]; omega
  have hlenB : (h.drop q).length = 32 - q := by
    rw [List.length_drop, hlen]
  have hBne : h.drop q ≠ [] := by
    intro hnil
    rw [hnil] at hlenB
    simp at hlenB
    omega
  obtain ⟨m, C, hB⟩ := List.exists_cons_of_ne_nil hBne
  have hmlt : m < 256 := by
    apply hbytes
    rw [hsplit, hB]
    exact List.mem_append_right _ (List.mem_cons_self m C)
  have hlenC : C.length = 31 - q := by
    have := hlenB
    rw [hB] at this
    simp at this
    omega
  have hgetD : h.getD q 0 = m := by
    conv_lhs => rw [hsplit, hB]
    have := getD_append_middle (h.take q) m C
    rwa [hlenA] at this
  have hval : beVal h = beVal (h.take q) * 256 ^ (32 - q) + beVal (h.drop q) := by
    conv_lhs => rw [hsplit]
    rw [beVal_append, hlenB]
  have hvalB : beVal (h.drop q) = m * 256 ^ (31 - q) + beVal C := by
    rw [hB, beVal, hlenC]
  have hCbytes : ∀ b ∈ C, b < 256 := by
    intro b hb
    apply hbytes
    rw [hsplit, hB]
    exact List.mem_append_right _ (List.mem_cons_of_mem m hb)
  have hCbound : beVal C < 256 ^ (31 - q) := by
    have := beVal_lt C hCbytes
    rwa [hlenC] at this
  have hpow256 : ∀ k : Nat, (256 : Nat) ^ k = 2 ^ (8 * k) := by
    intro k
    rw [show (256 : Nat) = 2 ^ 8 by norm_num, ← pow_mul]
  by_cases hz : zeroBytes h q = true
  · -- coarse check passes: first q bytes are zero
    have hAzero : ∀ b ∈ h.take q, b = 0 := (zeroBytes_iff h q).mp hz
    have hvalA : beVal (h.take q) = 0 := (beVal_eq_zero_iff _).mpr hAzero
    have hvalh : beVal h = m * 256 ^ (31 - q) + beVal C := by
      rw [hval, hvalA, hvalB]; ring
    by_cases hr0 : r = 0
    · -- d is a multiple of 8: eval succeeds, and the bound always holds
      have heval : trigg_eval h d = true := by
        simp only [trigg_eval, hd256, hshift, hand, ← hq, ← hr, hz, hr0]
        simp
      rw [heval]
      simp only [true_iff]
      have hd8 : d = 8 * q := by omega
      calc beVal h = m * 256 ^ (31 - q) + beVal C := hvalh
        _ < 256 ^ (32 - q) := by
            have h1 : m * 256 ^ (31 - q) ≤ 255 * 256 ^ (31 - q) :=
              Nat.mul_le_mul_right _ (by omega)
            have h2 : (256 : Nat) ^ (32 - q) = 256 * 256 ^ (31 - q) := by
              rw [← pow_succ']
              congr 1
              omega
            omega
        _ = 2 ^ (256 - d) := by
            rw [hpow256, hd8]
            congr 1
            omega
    · -- fine bit check on byte q
      have hr1 : 1 ≤ r := by omega
      have hmask := land_mask_eq_zero_iff r hr8 hr1 m hmlt
      have heval : trigg_eval h d =
          decide (m &&& (255 ^^^ (255 >>> r)) = 0) := by
        simp only [trigg_eval, hd256, hshift, hand, ← hq, ← hr, hz, hgetD]
        simp only [if_neg hr0]
        by_cases hc : m &&& (255 ^^^ (255 >>> r)) = 0
        · simp [hc]
        · simp [hc]
      rw [heval]
      have hdq : 256 - d = (8 - r) + 8 * (31 - q) := by omega
      constructor
      · intro hdec
        have hm : m < 2 ^ (8 - r) := hmask.mp (by simpa using hdec)
        rw [hvalh, hdq, pow_add]
        have h1 : m * 256 ^ (31 - q) ≤ (2 ^ (8 - r) - 1) * 256 ^ (31 - q) :=
          Nat.mul_le_mul_right _ (by omega)
        have h2 : (0:Nat) < 2 ^ (8 - r) := pow_pos (by norm_num) _
        rw [hpow256] at hCbound h1 ⊢
        nlinarith [pow_pos (show (0:Nat) < 2 by norm_num) (8 * (31 - q))]
      · intro hlt
        have hm : m < 2 ^ (8 - r) := by
          by_contra hge
          push_neg at hge
          have : 2 ^ (8 - r) * 2 ^ (8 * (31 - q)) ≤ beVal h := by
            rw [hvalh, hpow256]
            have := Nat.mul_le_mul_right (2 ^ (8 * (31 - q))) hge
            omega
          rw [hdq, pow_add] at hlt
          omega
        simpa using hmask.mpr hm
  · -- coarse check fails: some byte among the first q is non-zero
    have hzf : zeroBytes h q = false := by
      revert hz
      cases zeroBytes h q <;> simp
    have heval : trigg_eval h d = false := by
      simp only [trigg_eval, hd256, hshift, ← hq, hzf]
      rw [if_pos trivial]
    rw [heval]
    simp only [Bool.false_eq_true, false_iff, not_lt]
    have hAnz : beVal (h.take q) ≠ 0 := by
      intro h0
      exact hz ((zeroBytes_iff h q).mpr ((beVal_eq_zero_iff _).mp h0))
    have hA1 : 1 ≤ beVal (h.take q) := Nat.one_le_iff_ne_zero.mpr hAnz
    calc 2 ^ (256 - d) ≤ 2 ^ (8 * (32 - q)) := by
          apply Nat.pow_le_pow_right (by norm_num)
          omega
      _ = 256 ^ (32 - q) := (hpow256 _).symm
      _ ≤ beVal (h.take q) * 256 ^ (32 - q) := Nat.le_mul_of_pos_left _ hA1
      _ ≤ beVal h := by rw [hval]; omega

/-- Witness for the claim C2 theorem at the spec's scenario 6 input: the
hash 0x00 0x00 0x1F 00...00 at difficulty 19. -/
theorem trigg_eval_iff_leading_zeros_witness :
    (trigg_eval (0 :: 0 :: 31 :: List.replicate 29 0) 19 = true ↔
      beVal (0 :: 0 :: 31 :: List.replicate 29 0) < 2 ^ 237) :=
  trigg_eval_iff_leading_zeros (0 :: 0 :: 31 :: List.replicate 29 0) 19
    (by decide) (by decide) (by decide)

/-- Counterexample to claim C5: at difficulty 256 the evaluator accepts
the all-0xFF hash, which is not the all-zero hash, because the uint8_t
difficulty parameter truncates 256 to 0. -/
theorem trigg_eval_diff256_accepts_nonzero_hash :
    trigg_eval (List.replicate 32 255) 256 = true ∧
      List.replicate 32 255 ≠ List.replicate 32 0 := by
  constructor
  · decide
  · decide

/-- Claim C5 as amended: at difficulty 0 the evaluator accepts every
hash; the difficulty argument is truncated to 8 bits (uint8_t), so at
difficulty 256 the evaluator likewise accepts every hash, not only the
all-zero one. -/
theorem trigg_eval_diff_zero_and_256_accept_all (h : List Nat) :
    trigg_eval h 0 = true ∧ trigg_eval h 256 = true := by
  have h0 : ∀ l : List Nat, zeroBytes l 0 = true := by
    intro l
    cases l <;> rfl
  constructor <;> simp [trigg_eval, h0]

/-! ## Expansion: backspace tokens and buffer bounds -/

/-- Modelled from the spec text of claim C4 for comparison with the code:
a teletype interpretation of a backspace token, where the leading 0x08
consumes one byte of the already-expanded text and the remaining token
bytes are then appended (space handling as in expandStep). -/
def teletypeStepSpec (acc : List Nat) (b : Nat) : List Nat :=
  let w := DictTok b
  if w.head? = some 8 then
    let acc' := acc.dropLast ++ w.drop 1
    if acc'.getLast? = some 10 then acc' else acc' ++ [32]
  else expandStep acc b

/-- Modelled from the spec text of claim C4: token walk using the
teletype interpretation for backspace tokens. -/
def teletypeExpandSpec (acc : List Nat) : List Nat → List Nat
  | [] => acc
  | b :: bs => if b = 0 then acc else teletypeExpandSpec (teletypeStepSpec acc b) bs

/-- Counterexample to claim C4: on the token array "a" followed by the
backspace token 2, trigg_expand stores the raw 0x08 byte after the space
instead of erasing the space; the result differs from the teletype
interpretation demanded by the claim. -/
theorem trigg_expand_backspace_differs_teletype :
    expandText [] [5, 2, 0, 0, 0, 0, 0, 0, 0, 0, 0, 0, 0, 0, 0, 0] =
        [97, 32, 8, 58, 32] ∧
      teletypeExpandSpec [] [5, 2, 0, 0, 0, 0, 0, 0, 0, 0, 0, 0, 0, 0, 0, 0] =
        [97, 58, 32] ∧
      trigg_expand [5, 2, 0, 0, 0, 0, 0, 0, 0, 0, 0, 0, 0, 0, 0, 0] ≠
        [97, 58, 32] ++ List.replicate 253 0 := by
  refine ⟨by decide, by decide, ?_⟩
  decide

theorem dictEntries_length : dictEntries.length = 256 := by decide

theorem dictTok_high (b : Nat) (hb : 256 ≤ b) : DictTok b = [] := by
  unfold DictTok Dict
  rw [List.getD_eq_default]
  rw [dictEntries_length]
  omega

/-- Claim C4 as amended: trigg_expand copies a backspace-prefixed token
verbatim: the 0x08 byte itself is stored in the buffer and no preceding
byte is removed (each such token also gains a trailing space, since none
of them ends in a newline); the teletype erase happens only when the
haiku is displayed, not in the hashed buffer. -/
theorem trigg_expand_backspace_copied_verbatim (b : Nat)
    (hb : (DictTok b).head? = some 8) (acc : List Nat) :
    expandStep acc b = acc ++ DictTok b ++ [32] := by
  have hblt : b < 256 := by
    by_contra hge
    push_neg at hge
    rw [dictTok_high b hge] at hb
    simp at hb
  have hkey : ∀ i < 256, (DictTok i).head? = some 8 →
      (DictTok i).getLast? ≠ some 10 := by decide
  have hne : DictTok b ≠ [] := by
    intro hnil
    rw [hnil] at hb
    simp at hb
  have hlast : (acc ++ DictTok b).getLast? = (DictTok b).getLast? :=
    List.getLast?_append_of_ne_nil _ hne
  simp only [expandStep]
  rw [hlast, if_neg (hkey b hblt hb), List.append_assoc]

/-- Witness for the amended C4 theorem: the token 2 is "\b:", and
expanding it after the text "a " yields "a " ++ [0x08, 0x3A, 0x20]. -/
theorem trigg_expand_backspace_copied_verbatim_witness :
    expandStep [97, 32] 2 = [97, 32] ++ DictTok 2 ++ [32] :=
  trigg_expand_backspace_copied_verbatim 2 (by decide) [97, 32]

theorem dictTok_length_le (i : Nat) : (DictTok i).length ≤ 11 := by
  by_cases hi : i < 256
  · have hall : ∀ j < 256, (DictTok j).length ≤ 11 := by decide
    exact hall i hi
  · push_neg at hi
    rw [dictTok_high i hi]
    simp

theorem expandStep_length_le (acc : List Nat) (b : Nat) :
    (expandStep acc b).length ≤ acc.length + 12 := by
  have := dictTok_length_le b
  unfold expandStep
  by_cases hc : (acc ++ DictTok b).getLast? = some 10
  · simp only [if_pos hc, List.length_append]
    omega
  · simp only [if_neg hc, List.length_append, List.length_cons,
      List.length_nil]
    omega

theorem expandText_length_le (ts : List Nat) :
    ∀ acc : List Nat, (expandText acc ts).length ≤ acc.length + 12 * ts.length := by
  induction ts with
  | nil =>
    intro acc
    simp [expandText]
  | cons b bs ih =>
    intro acc
    by_cases hb : b = 0
    · subst hb
      simp [expandText]
    · simp only [expandText, if_neg hb]
      have h1 := ih (expandStep acc b)
      have h2 := expandStep_length_le acc b
      simp only [List.length_cons]
      omega

theorem getD_replicate_zero (n k : Nat) (hk : k < n) :
    (List.replicate n (0:Nat)).getD k 1 = 0 := by
  induction n generalizing k with
  | zero => omega
  | succ m ih =>
    cases k with
    | zero => rfl
    | succ j =>
      simp only [List.replicate_succ, List.getD_cons_succ]
      exact ih j (by omega)

/-- Claim C10: for a 16-byte token array accepted by trigg_syntax, the
expanded text fits in 192 bytes (each token contributes at most 12 bytes
including its trailing space), the 256-byte output buffer therefore
contains every write, and every buffer byte from the end of the expanded
text through byte 255 is zero. -/
theorem trigg_expand_writes_bounded (T : List Nat) (hlen : T.length = 16)
    (_hsyn : trigg_syntax T = true) :
    (expandText [] T).length ≤ 192 ∧
      (trigg_expand T).length = 256 ∧
      trigg_expand T =
        expandText [] T ++ List.replicate (256 - (expandText [] T).length) 0 ∧
      (∀ k, (expandText [] T).length ≤ k → k < 256 →
        (trigg_expand T).getD k 1 = 0) := by
  have hb : (expandText [] T).length ≤ 192 := by
    have := expandText_length_le T []
    simp only [List.length_nil, Nat.zero_add, hlen] at this
    omega
  refine ⟨hb, ?_, rfl, ?_⟩
  · simp only [trigg_expand, List.length_append, List.length_replicate]
    omega
  · intro k hk1 hk2
    simp only [trigg_expand]
    rw [List.getD_append_right _ _ _ _ hk1]
    exact getD_replicate_zero _ _ (by omega)

/-- Witness for the claim C10 theorem at a concrete syntax-valid haiku
(frame 0: "at arid water \n hawks \n wait"). -/
theorem trigg_expand_writes_bounded_witness :
    (expandText [] [12, 61, 214, 1, 139, 1, 48, 0, 0, 0, 0, 0, 0, 0, 0, 0]).length ≤ 192 ∧
      (trigg_expand [12, 61, 214, 1, 139, 1, 48, 0, 0, 0, 0, 0, 0, 0, 0, 0]).length = 256 ∧
      trigg_expand [12, 61, 214, 1, 139, 1, 48, 0, 0, 0, 0, 0, 0, 0, 0, 0] =
        expandText [] [12, 61, 214, 1, 139, 1, 48, 0, 0, 0, 0, 0, 0, 0, 0, 0] ++
          List.replicate
            (256 - (expandText [] [12, 61, 214, 1, 139, 1, 48, 0, 0, 0, 0, 0, 0, 0, 0, 0]).length) 0 ∧
      (∀ k, (expandText [] [12, 61, 214, 1, 139, 1, 48, 0, 0, 0, 0, 0, 0, 0, 0, 0]).length ≤ k →
        k < 256 →
        (trigg_expand [12, 61, 214, 1, 139, 1, 48, 0, 0, 0, 0, 0, 0, 0, 0, 0]).getD k 1 = 0) :=
  trigg_expand_writes_bounded [12, 61, 214, 1, 139, 1, 48, 0, 0, 0, 0, 0, 0, 0, 0, 0]
    (by decide) (by decide)

/-! ## Relating trigg_syntax and trigg_gen

The generator draws one choice per slot, so a token array is reachable
from some PRNG stream exactly when every slot of some frame is matched
slot-wise; genMatchB is that slot-wise condition. -/

/-- Slot-wise condition for a token array to be exactly what trigg_gen
emits for a given frame row: zero slots carry a zero byte, XLIT slots
carry the literal low byte, other slots carry a feature-matching word. -/
def genMatchB : List Nat → List Nat → Bool
  | [], [] => true
  | slot :: ss, t :: ts =>
    (if slot = 0 then decide (t = 0)
     else if slot &&& 131072 ≠ 0 then decide (t = slot &&& 255)
     else decide (DictFe t &&& slot ≠ 0)) && genMatchB ss ts
  | _, _ => false

/-- All slots of a list are zero. -/
def allZeroB (l : List Nat) : Bool :=
  l.all (fun x => x = 0)

/-- Zeros form a suffix: after the first zero slot every slot is zero
(true of every row of the Frame table, which is zero-padded). -/
def zerosClosedB : List Nat → Bool
  | [] => true
  | 0 :: ss => allZeroB ss
  | _ :: ss => zerosClosedB ss

/-- Every XLIT slot carries a non-zero literal byte. -/
def xlitNonzeroB : List Nat → Bool
  | [] => true
  | s :: ss =>
    (if s &&& 131072 ≠ 0 then decide (s &&& 255 ≠ 0) else true) && xlitNonzeroB ss

theorem dictFe_zero : DictFe 0 = 0 := by decide

theorem dictFe_high (t : Nat) (ht : 256 ≤ t) : DictFe t = 0 := by
  unfold DictFe Dict
  rw [List.getD_eq_default]
  rw [dictEntries_length]
  omega

theorem pickTok_sound (slot : Nat) :
    ∀ rands w rands', pickTok slot rands = some (w, rands') →
      DictFe w &&& slot ≠ 0 ∧ w < 256 := by
  intro rands
  induction rands with
  | nil =>
    intro w rands' h
    simp [pickTok] at h
  | cons r rest ih =>
    intro w rands' h
    simp only [pickTok] at h
    by_cases hc : DictFe (r &&& 255) &&& slot ≠ 0
    · rw [if_pos hc] at h
      injection h with h'
      injection h' with h1 h2
      subst h1
      refine ⟨hc, ?_⟩
      have : r &&& 255 ≤ 255 := Nat.and_le_right
      omega
    · rw [if_neg hc] at h
      exact ih w rands' h

theorem pickTok_complete (slot w : Nat) (h1 : DictFe w &&& slot ≠ 0)
    (h2 : w < 256) (rands : List Nat) :
    pickTok slot (w :: rands) = some (w, rands) := by
  have hw : w &&& 255 = w := by
    have := Nat.and_pow_two_sub_one_eq_mod w 8
    norm_num at this
    rw [this]
    exact Nat.mod_eq_of_lt h2
  simp only [pickTok, hw]
  rw [if_pos h1]

theorem genSlots_sound :
    ∀ ss rands U, genSlots ss rands = some U → genMatchB ss U = true := by
  intro ss
  induction ss with
  | nil =>
    intro rands U h
    simp only [genSlots] at h
    injection h with h'
    subst h'
    rfl
  | cons slot ss ih =>
    intro rands U h
    simp only [genSlots] at h
    by_cases h0 : slot = 0
    · rw [if_pos h0] at h
      cases hg : genSlots ss rands with
      | none => rw [hg] at h; simp at h
      | some U' =>
        rw [hg] at h
        simp only [Option.map_some'] at h
        injection h with h'
        subst h'
        simp [genMatchB, h0, ih rands U' hg]
    · rw [if_neg h0] at h
      by_cases hx : slot &&& 131072 ≠ 0
      · rw [if_pos hx] at h
        cases hg : genSlots ss rands with
        | none => rw [hg] at h; simp at h
        | some U' =>
          rw [hg] at h
          simp only [Option.map_some'] at h
          injection h with h'
          subst h'
          simp [genMatchB, h0, hx, ih rands U' hg]
      · rw [if_neg hx] at h
        cases hp : pickTok slot rands with
        | none => rw [hp] at h; simp at h
        | some wr =>
          obtain ⟨w, rands'⟩ := wr
          rw [hp] at h
          simp only [Option.some_bind] at h
          cases hg : genSlots ss rands' with
          | none => rw [hg] at h; simp at h
          | some U' =>
            rw [hg] at h
            simp only [Option.map_some'] at h
            injection h with h'
            subst h'
            have hps := (pickTok_sound slot rands w rands' hp).1
            simp [genMatchB, h0, hx, hps, ih rands' U' hg]

theorem genSlots_complete :
    ∀ ss U, genMatchB ss U = true → ∃ rands, genSlots ss rands = some U := by
  intro ss
  induction ss with
  | nil =>
    intro U h
    cases U with
    | nil => exact ⟨[], rfl⟩
    | cons t ts => simp [genMatchB] at h
  | cons slot ss ih =>
    intro U h
    cases U with
    | nil => simp [genMatchB] at h
    | cons t ts =>
      simp only [genMatchB, Bool.and_eq_true] at h
      obtain ⟨hhead, htail⟩ := h
      obtain ⟨rands, hr⟩ := ih ts htail
      by_cases h0 : slot = 0
      · rw [if_pos h0] at hhead
        have ht : t = 0 := of_decide_eq_true hhead
        subst ht
        exact ⟨rands, by simp [genSlots, h0, hr]⟩
      · rw [if_neg h0] at hhead
        by_cases hx : slot &&& 131072 ≠ 0
        · rw [if_pos hx] at hhead
          have ht : t = slot &&& 255 := of_decide_eq_true hhead
          subst ht
          exact ⟨rands, by simp [genSlots, h0, hx, hr]⟩
        · rw [if_neg hx] at hhead
          have hfe : DictFe t &&& slot ≠ 0 := of_decide_eq_true hhead
          have htlt : t < 256 := by
            by_contra hge
            push_neg at hge
            rw [dictFe_high t hge, Nat.zero_and] at hfe
            exact hfe rfl
          refine ⟨t :: rands, ?_⟩
          simp only [genSlots, if_neg h0, if_neg hx,
            pickTok_complete slot t hfe htlt rands, Option.some_bind, hr,
            Option.map_some']

/-- Bridge between reachability of trigg_gen from some PRNG stream and
the slot-wise matching condition against some frame. -/
theorem trigg_gen_exists_iff (U : List Nat) :
    (∃ rands, trigg_gen rands = some U) ↔
      ∃ fi < 10, genMatchB (Frame.getD fi []) U = true := by
  constructor
  · rintro ⟨rands, hg⟩
    cases rands with
    | nil => simp [trigg_gen] at hg
    | cons r rest =>
      simp only [trigg_gen] at hg
      exact ⟨r % 10, Nat.mod_lt _ (by norm_num),
        genSlots_sound _ rest U hg⟩
  · rintro ⟨fi, hfi, hm⟩
    obtain ⟨rands, hr⟩ := genSlots_complete _ U hm
    refine ⟨fi :: rands, ?_⟩
    simp only [trigg_gen, Nat.mod_eq_of_lt hfi, hr]

theorem genMatchB_zeros :
    ∀ ss, allZeroB ss = true → genMatchB ss (List.replicate ss.length 0) = true := by
  intro ss
  induction ss with
  | nil => intro _; rfl
  | cons s ss ih =>
    intro h
    simp only [allZeroB, List.all_cons, Bool.and_eq_true, decide_eq_true_eq] at h
    obtain ⟨hs, hss⟩ := h
    subst hs
    simp only [List.length_cons, List.replicate_succ, genMatchB]
    have := ih (by simpa [allZeroB] using hss)
    simp [this]

/-- From a successful checkSlots run, extract the position of the frame's
first zero slot and a token array that the generator could emit: it
agrees with the checked tokens strictly before that position and is zero
from it on. -/
theorem checkSlots_exists :
    ∀ ss ts, zerosClosedB ss = true → ts.length = ss.length →
      checkSlots ss ts = true →
      ∃ j U, genMatchB ss U = true ∧ j ≤ ss.length ∧
        U.length = ss.length ∧
        (∀ k, k < j → U.getD k 0 = ts.getD k 0) ∧
        (0 ∈ ss → j < ss.length) ∧
        (j < ss.length → U.getD j 0 = 0 ∧ DictFe (ts.getD j 0) = 0) := by
  intro ss
  induction ss with
  | nil =>
    intro ts _ hlen _
    refine ⟨0, [], rfl, Nat.le_refl _, ?_, ?_, ?_, ?_⟩
    · cases ts with
      | nil => rfl
      | cons t ts' => simp at hlen
    · intro k hk; omega
    · intro hmem; simp at hmem
    · intro hlt; simp at hlt
  | cons slot ss ih =>
    intro ts hz hlen hcheck
    cases ts with
    | nil => simp at hlen
    | cons t ts' =>
      have hlen' : ts'.length = ss.length := by
        simp only [List.length_cons] at hlen
        omega
      by_cases h0 : slot = 0
      · subst h0
        have hfe : DictFe t = 0 := by
          simpa [checkSlots] using hcheck
        have hzz : allZeroB ss = true := by
          simpa [zerosClosedB] using hz
        refine ⟨0, 0 :: List.replicate ss.length 0, ?_, ?_, ?_, ?_, ?_, ?_⟩
        · simp only [genMatchB, if_pos rfl]
          simp [genMatchB_zeros ss hzz]
        · omega
        · simp
        · intro k hk; omega
        · intro _; simp
        · intro _
          exact ⟨rfl, hfe⟩
      · have hz' : zerosClosedB ss = true := by
          cases slot with
          | zero => exact absurd rfl h0
          | succ m => simpa [zerosClosedB] using hz
        have hcheck' : checkSlots ss ts' = true ∧
            (if slot &&& 131072 ≠ 0 then slot &&& 255 = t
             else DictFe t &&& slot ≠ 0) := by
          by_cases hx : slot &&& 131072 ≠ 0
          · simp only [checkSlots, if_neg h0, if_pos hx,
              Bool.and_eq_true, decide_eq_true_eq] at hcheck
            exact ⟨hcheck.2, by rw [if_pos hx]; exact hcheck.1⟩
          · simp only [checkSlots, if_neg h0, if_neg hx,
              Bool.and_eq_true, decide_eq_true_eq] at hcheck
            exact ⟨hcheck.2, by rw [if_neg hx]; exact hcheck.1⟩
        obtain ⟨j', U', hm', hj', hlenU', hagree', hmem', hzero'⟩ :=
          ih ts' hz' hlen' hcheck'.1
        refine ⟨j' + 1, t :: U', ?_, ?_, ?_, ?_, ?_, ?_⟩
        · simp only [genMatchB, if_neg h0, Bool.and_eq_true]
          refine ⟨?_, hm'⟩
          by_cases hx : slot &&& 131072 ≠ 0
          · rw [if_pos hx]
            have := hcheck'.2
            rw [if_pos hx] at this
            simp [this.symm]
          · rw [if_neg hx]
            have := hcheck'.2
            rw [if_neg hx] at this
            simp [this]
        · simp only [List.length_cons]; omega
        · simp [hlenU']
        · intro k hk
          cases k with
          | zero => rfl
          | succ k' =>
            simp only [List.getD_cons_succ]
            exact hagree' k' (by omega)
        · intro hmem
          rcases List.mem_cons.mp hmem with h | h
          · exact absurd h.symm h0
          · have := hmem' h
            simp only [List.length_cons]
            omega
        · intro hlt
          simp only [List.length_cons] at hlt
          have := hzero' (by omega)
          simpa using this

/-- Conversely, a generator-reachable token array that agrees with the
checked tokens before position j, is zero at j, and whose checked token
at j has feature mask zero, makes checkSlots succeed. -/
theorem match_to_checkSlots :
    ∀ ss U ts j, xlitNonzeroB ss = true →
      genMatchB ss U = true → ts.length = ss.length →
      (∀ k, k < j → U.getD k 0 = ts.getD k 0) → j < ss.length →
      U.getD j 0 = 0 → DictFe (ts.getD j 0) = 0 →
      checkSlots ss ts = true := by
  intro ss
  induction ss with
  | nil =>
    intro U ts j _ _ _ _ hj _ _
    simp at hj
  | cons slot ss ih =>
    intro U ts j hx hm hlen hagree hj hUj hfe
    cases U with
    | nil => cases slot <;> simp [genMatchB] at hm
    | cons u U' =>
      cases ts with
      | nil => simp at hlen
      | cons t ts' =>
        have hlen' : ts'.length = ss.length := by
          simp only [List.length_cons] at hlen
          omega
        simp only [genMatchB, Bool.and_eq_true] at hm
        obtain ⟨hhead, htail⟩ := hm
        simp only [xlitNonzeroB, Bool.and_eq_true] at hx
        obtain ⟨hxhead, hxtail⟩ := hx
        by_cases h0 : slot = 0
        · -- the frame slot is zero: checkSlots only inspects DictFe t
          rw [if_pos h0] at hhead
          have hu : u = 0 := of_decide_eq_true hhead
          have ht0 : DictFe t = 0 := by
            cases j with
            | zero => simpa using hfe
            | succ j' =>
              have := hagree 0 (by omega)
              simp only [List.getD_cons_zero] at this
              rw [← this, hu, dictFe_zero]
          simp [checkSlots, h0, ht0]
        · rw [if_neg h0] at hhead
          by_cases hxl : slot &&& 131072 ≠ 0
          · -- XLIT slot: its literal byte is non-zero, so j > 0 here
            rw [if_pos hxl] at hhead
            have hu : u = slot &&& 255 := of_decide_eq_true hhead
            rw [if_pos hxl] at hxhead
            have hlit : slot &&& 255 ≠ 0 := of_decide_eq_true hxhead
            cases j with
            | zero =>
              rw [show u = (0:Nat) by simpa using hUj] at hu
              exact absurd hu.symm hlit
            | succ j' =>
              have ht : u = t := by
                have := hagree 0 (by omega)
                simpa using this
              simp only [checkSlots, if_neg h0, if_pos hxl,
                Bool.and_eq_true, decide_eq_true_eq]
              refine ⟨by rw [← ht, hu], ?_⟩
              refine ih U' ts' j' hxtail htail hlen' ?_ ?_ ?_ ?_
              · intro k hk
                have := hagree (k + 1) (by omega)
                simpa using this
              · simp only [List.length_cons] at hj
                omega
              · simpa using hUj
              · simpa using hfe
          · -- feature mask slot: a zero word cannot match, so j > 0 here
            rw [if_neg hxl] at hhead
            have hu : DictFe u &&& slot ≠ 0 := of_decide_eq_true hhead
            cases j with
            | zero =>
              rw [show u = (0:Nat) by simpa using hUj, dictFe_zero,
                Nat.zero_and] at hu
              exact absurd rfl hu
            | succ j' =>
              have ht : u = t := by
                have := hagree 0 (by omega)
                simpa using this
              simp only [checkSlots, if_neg h0, if_neg hxl,
                Bool.and_eq_true, decide_eq_true_eq]
              refine ⟨by rw [← ht]; exact hu, ?_⟩
              refine ih U' ts' j' hxtail htail hlen' ?_ ?_ ?_ ?_
              · intro k hk
                have := hagree (k + 1) (by omega)
                simpa using this
              · simp only [List.length_cons] at hj
                omega
              · simpa using hUj
              · simpa using hfe

/-- Counterexample to claim C3: this token array satisfies trigg_syntax
(frame 0 succeeds at its first zero slot, position 7) yet no PRNG stream
makes trigg_gen produce it, because trigg_gen writes zero bytes at every
zero slot while byte 8 here is the non-zero token 7. -/
theorem trigg_syntax_accepts_non_producible :
    trigg_syntax [12, 61, 214, 1, 139, 1, 48, 0, 7, 0, 0, 0, 0, 0, 0, 0] = true ∧
      ¬ ∃ rands,
        trigg_gen rands = some [12, 61, 214, 1, 139, 1, 48, 0, 7, 0, 0, 0, 0, 0, 0, 0] := by
  constructor
  · decide
  · rw [trigg_gen_exists_iff]
    decide

/-- Claim C3 as amended: trigg_syntax(T) holds iff trigg_gen can, for
some PRNG stream, emit a token array U that agrees with T strictly below
some position j < 16 at which U carries the terminating zero and T's
byte has feature mask zero (index 0 is the only dictionary index with an
empty feature mask).  The original claim fails only in that trigg_syntax
stops reading at the frame's first zero slot, so T itself need not be
reachable: its bytes after j are unconstrained. -/
theorem trigg_syntax_iff_producible_truncation (T : List Nat)
    (hlen : T.length = 16) (_hbytes : ∀ b ∈ T, b < 256) :
    ( trigg_syntax T = true ↔
      ∃ rands U j, trigg_gen rands = some U ∧ j < 16 ∧
        (∀ k, k < j → U.getD k 0 = T.getD k 0) ∧
        U.getD j 0 = 0 ∧ DictFe (T.getD j 0) = 0) := by
  have hframe : ∀ row ∈ Frame, zerosClosedB row = true ∧
      xlitNonzeroB row = true ∧ row.length = 16 ∧ 0 ∈ row := by decide
  constructor
  · intro hsynT
    obtain ⟨row, hmem, hcheck⟩ := List.any_eq_true.mp hsynT
    obtain ⟨hzc, hxn, hrl, h0m⟩ := hframe row hmem
    obtain ⟨j, U, hm, _hjle, _hlenU, hagree, hmemj, hzeroj⟩ :=
      checkSlots_exists row T hzc (by omega) hcheck
    have hjlt : j < 16 := by
      have := hmemj h0m
      omega
    obtain ⟨hUj, hfe⟩ := hzeroj (by omega)
    obtain ⟨fi, hfi, hrow⟩ := List.mem_iff_getElem.mp hmem
    have hfi10 : fi < 10 := by
      have : Frame.length = 10 := by decide
      omega
    have hgetD : Frame.getD fi [] = row := by
      rw [List.getD_eq_getElem Frame [] (by omega)]
      exact hrow
    obtain ⟨rands, hr⟩ := (trigg_gen_exists_iff U).mpr
      ⟨fi, hfi10, by rw [hgetD]; exact hm⟩
    exact ⟨rands, U, j, hr, hjlt, hagree, hUj, hfe⟩
  · rintro ⟨rands, U, j, hgen, hj, hagree, hUj, hfe⟩
    obtain ⟨fi, hfi, hm⟩ := (trigg_gen_exists_iff U).mp ⟨rands, hgen⟩
    have hmem : Frame.getD fi [] ∈ Frame := by
      have hl : Frame.length = 10 := by decide
      rw [List.getD_eq_getElem Frame [] (by omega)]
      exact List.getElem_mem _
    obtain ⟨hzc, hxn, hrl, h0m⟩ := hframe _ hmem
    have hcheck : checkSlots (Frame.getD fi []) T = true :=
      match_to_checkSlots _ U T j hxn hm (by omega) hagree (by omega) hUj hfe
    exact List.any_eq_true.mpr ⟨Frame.getD fi [], hmem, hcheck⟩

/-- Witness for the amended C3 theorem at a concrete reachable haiku
(frame 0 with terminator at position 7). -/
theorem trigg_syntax_iff_producible_truncation_witness :
    ( trigg_syntax [12, 61, 214, 1, 139, 1, 48, 0, 0, 0, 0, 0, 0, 0, 0, 0] = true ↔
      ∃ rands U j, trigg_gen rands = some U ∧ j < 16 ∧
        (∀ k, k < j →
          U.getD k 0 = [12, 61, 214, 1, 139, 1, 48, 0, 0, 0, 0, 0, 0, 0, 0, 0].getD k 0) ∧
        U.getD j 0 = 0 ∧
        DictFe ([12, 61, 214, 1, 139, 1, 48, 0, 0, 0, 0, 0, 0, 0, 0, 0].getD j 0) = 0) :=
  trigg_syntax_iff_producible_truncation
    [12, 61, 214, 1, 139, 1, 48, 0, 0, 0, 0, 0, 0, 0, 0, 0] (by decide) (by decide)

/-! ## Peach algorithm (peach.c)

The Peach layer is embedded over two abstractions:

* the seven cryptographic hash primitives (md2.c, md5.c, sha1.c,
  sha256.c, sha3.c, blake2b.c live under ../hash, outside the two CORE
  files; the spec treats them as external collaborators with a fixed
  byte contract), bundled as a HashPrims parameter; and
* the IEEE-754 single-precision lane computation of peach_dflop (bit
  reinterpretation, float arithmetic, NaN replacement), which is not
  shallowly embeddable and is abstracted as a FlopFn parameter taking
  the 4 lane bytes, the operation selector op & 3, the 32-bit operand
  pattern, and the index, and returning the 4 result bytes.

Every byte-moving step around these two abstractions is embedded exactly
as the source writes it. -/

def HASHLEN : Nat := 32

def PEACH_TILE : Nat := 1024

def PEACH_MAP : Nat := 1048576

def PEACH_RNDS : Nat := 8

def PEACH_JUMP : Nat := 8

/-- Little-endian byte encoding of a uint32 value. -/
def le4 (x : Nat) : List Nat :=
  [x % 256, x / 256 % 256, x / 65536 % 256, x / 16777216 % 256]

/-- Little-endian uint32 read at byte offset i. -/
def u32at (l : List Nat) (i : Nat) : Nat :=
  l.getD i 0 + 256 * l.getD (i + 1) 0 + 65536 * l.getD (i + 2) 0 +
    16777216 * l.getD (i + 3) 0

/-- Abstract single-precision lane operation of peach_dflop (see the
section comment). -/
def FlopFn : Type :=
  List Nat → Nat → Nat → Nat → List Nat

/-- One 4-byte lane of peach_dflop: the shift is derived from the lane's
first byte, the three selector constants 0x26C34, 0x14198 and 0x3D6EC
pick bytes within the lane, op accumulates the selected byte and then the
four bytes of the float result (32-bit wrapping), and the possibly
sign-flipped operand pattern is passed to the abstract float operation. -/
def dflopLane (flop : FlopFn) (index op l0 l1 l2 l3 : Nat) : Nat × List Nat :=
  let lane := [l0, l1, l2, l3]
  let shift := ((l0 &&& 7) + 1) <<< 1
  let op1 := (op + lane.getD ((0x26C34 >>> shift) &&& 3) 0) % 4294967296
  let operandBits :=
    if lane.getD ((0x3D6EC >>> shift) &&& 3) 0 &&& 1 ≠ 0 then
      lane.getD ((0x14198 >>> shift) &&& 3) 0 ^^^ 0x80000000
    else lane.getD ((0x14198 >>> shift) &&& 3) 0
  let res := flop lane (op1 &&& 3) operandBits index
  let op2 := (op1 + res.getD 0 0 + res.getD 1 0 + res.getD 2 0 +
    res.getD 3 0) % 4294967296
  (op2, res)

/-- Lane loop of peach_dflop: the length is limited to a multiple of 4,
so a tail shorter than 4 bytes is left untouched; with txf unset each
lane operates on a local copy and the buffer is returned unchanged. -/
def dflopGo (flop : FlopFn) (index : Nat) (txf : Bool) :
    Nat → List Nat → Nat × List Nat
  | op, d0 :: d1 :: d2 :: d3 :: rest =>
    let step := dflopLane flop index op d0 d1 d2 d3
    let next := dflopGo flop index txf step.1 rest
    (next.1, cond txf step.2 [d0, d1, d2, d3] ++ next.2)
  | op, rest => (op, rest)

/-- peach_dflop: fold the lane loop from op = 0, returning the final op
and the (possibly transformed) buffer. -/
def peach_dflop (flop : FlopFn) (data : List Nat) (index : Nat)
    (txf : Bool) : Nat × List Nat :=
  dflopGo flop index txf 0 data

/-- Byte region touched by the 64-bit + 32-bit vectorised loops of
peach_dmemtx cases 0 and 2: bytes [0, 4*(len/4)) get XORed with v. -/
def memtxXorRegion (data : List Nat) (v : Nat) : List Nat :=
  data.mapIdx (fun i b => if i < 4 * (data.length / 4) then b ^^^ v else b)

/-- peach_dmemtx case 1: swap the two halves byte-wise (an odd trailing
byte stays in place). -/
def memtxSwapHalf (data : List Nat) : List Nat :=
  let h := data.length / 2
  data.mapIdx (fun i b =>
    if i < h then data.getD (i + h) 0
    else if i < h + h then data.getD (i - h) 0
    else b)

/-- peach_dmemtx case 6: sort-swap the two halves pointwise. -/
def memtxSortHalf (data : List Nat) : List Nat :=
  let h := data.length / 2
  data.mapIdx (fun i b =>
    if i < h then min b (data.getD (i + h) 0)
    else if i < h + h then max (data.getD (i - h) 0) b
    else b)

/-- peach_dmemtx case 7 inner loop: sequential prefix XOR with carry. -/
def prefXorGo (c : Nat) : List Nat → List Nat
  | [] => []
  | b :: bs => (c ^^^ b) :: prefXorGo (c ^^^ b) bs

/-- peach_dmemtx case 7: bp[z] ^= bp[z-1] for z = 1..len-1, left to
right, so each byte becomes the XOR of the original prefix. -/
def memtxPrefXor : List Nat → List Nat
  | [] => []
  | b :: bs => b :: prefXorGo b bs

/-- One round of peach_dmemtx: op absorbs the byte at index i & 31, then
op & 7 selects one of the eight byte transformations. -/
def dmemtxRound (st : Nat × List Nat) (i : Nat) : Nat × List Nat :=
  let data := st.2
  let op := (st.1 + data.getD (i &&& 31) 0) % 4294967296
  let data' :=
    match op &&& 7 with
    | 0 => memtxXorRegion data 0x81
    | 1 => memtxSwapHalf data
    | 2 => memtxXorRegion data 0xFF
    | 3 => data.mapIdx (fun z b =>
        if z % 2 = 0 then (b + 1) % 256 else (b + 255) % 256)
    | 4 => data.mapIdx (fun z b =>
        if z % 2 = 0 then (b + (256 - i % 256) % 256) % 256 else (b + i % 256) % 256)
    | 5 => data.map (fun b => if b = 104 then 72 else b)
    | 6 => memtxSortHalf data
    | _ => memtxPrefXor data
  (op, data')

/-- peach_dmemtx: PEACH_RNDS rounds of memory transformation. -/
def peach_dmemtx (data : List Nat) (op : Nat) : Nat × List Nat :=
  (List.range PEACH_RNDS).foldl dmemtxRound (op, data)

/-- The seven external hash primitives behind the nighthash dispatch
(blake2b takes its key as first argument).  They are parameters of the
whole development: nothing below depends on their behaviour beyond being
functions of their input bytes. -/
structure HashPrims where
  blake2b : List Nat → List Nat → List Nat
  sha1 : List Nat → List Nat
  sha256 : List Nat → List Nat
  sha3 : List Nat → List Nat
  keccak : List Nat → List Nat
  md2 : List Nat → List Nat
  md5 : List Nat → List Nat

/-- peach_nighthash: dflop determines the initial algo type (transforming
the input in place only when txf is set), dmemtx runs only when txf is
set, the selection is reduced mod 8, the little-endian index is appended
to the hash input when hashindex is set, and short digests are padded
with zeros to 32 bytes.  Returns the 32-byte digest together with the
input buffer as left by the call. -/
def peach_nighthash (prims : HashPrims) (flop : FlopFn) (data : List Nat)
    (index : Nat) (hashindex txf : Bool) : List Nat × List Nat :=
  let fl := peach_dflop flop data index txf
  let tx := cond txf (peach_dmemtx fl.2 fl.1) fl
  let algoType := tx.1 &&& 7
  let msg := tx.2 ++ cond hashindex (le4 index) []
  let out :=
    match algoType with
    | 0 => prims.blake2b (List.replicate 32 0) msg
    | 1 => prims.blake2b (List.replicate 64 1) msg
    | 2 => (prims.sha1 msg).take 20 ++ List.replicate 12 0
    | 3 => prims.sha256 msg
    | 4 => prims.sha3 msg
    | 5 => prims.keccak msg
    | 6 => (prims.md2 msg).take 16 ++ List.replicate 16 0
    | _ => (prims.md5 msg).take 16 ++ List.replicate 16 0
  (out, tx.2)

/-- peach_next: seed is nonce (32 B) ++ index (LE u32) ++ tile (1 KiB);
nighthash runs with no index suffix and no transformation; the eight
little-endian u32 lanes of the digest are summed with 32-bit wrap and
masked into the map. -/
def peach_next (prims : HashPrims) (flop : FlopFn) (index : Nat)
    (tile : List Nat) (nonce : List Nat) : Nat :=
  let seed := nonce ++ le4 index ++ tile
  let hash := (peach_nighthash prims flop seed index false false).1
  let s := (u32at hash 0 + u32at hash 4 + u32at hash 8 + u32at hash 12 +
    u32at hash 16 + u32at hash 20 + u32at hash 24 + u32at hash 28) % 4294967296
  s &&& (PEACH_MAP - 1)

/-- Chain of the 31 continuation calls filling a tile.  Each call
peach_nighthash(&tilep[32k], 32, index, 1, 1, &tilep[32(k+1)]) runs with
txf set, so it first transforms the input row in place (dflop writes the
float results back through the input pointer, dmemtx transforms it
further) and only then hashes the transformed bytes into the next row.
Given the digest currently stored in the row about to be consumed, this
produces that row as left in the map (the transformed bytes, the second
component of peach_nighthash) followed by the rest of the chain seeded
with the fresh digest; the last row keeps its digest untransformed. -/
def tileChain (prims : HashPrims) (flop : FlopFn) (index : Nat) :
    Nat → List Nat → List Nat
  | 0, prev => prev
  | n + 1, prev =>
    let nh := peach_nighthash prims flop prev index true true
    nh.2 ++ tileChain prims flop index n nh.1

/-- Tile value generated by peach_gen for a given previous block hash and
index: a 36-byte seed (LE index ++ phash) is nighthashed into row 0 (the
transformed seed buffer is local and discarded), then 31 chained calls
fill the remaining rows, each transforming its input row in place before
hashing it.  The stored tile is therefore the 31 transformed rows
followed by the final untransformed digest. -/
def peach_tile (prims : HashPrims) (flop : FlopFn) (phash : List Nat)
    (index : Nat) : List Nat :=
  let seed := le4 index ++ phash
  let row0 := (peach_nighthash prims flop seed index false true).1
  tileChain prims flop index 31 row0

/-- The map/cache of a solver context, as a partial function from tile
index to stored tile bytes (cache byte set exactly where some tile is
stored). -/
def TileCache : Type :=
  Nat → Option (List Nat)

/-- peach_gen in solver mode: return the cached tile when the cache byte
for the index is set, otherwise generate the tile into the map, set the
cache byte, and return it. -/
def peach_genS (prims : HashPrims) (flop : FlopFn) (phash : List Nat)
    (st : TileCache) (index : Nat) : List Nat × TileCache :=
  match st index with
  | some t => (t, st)
  | none =>
    let t := peach_tile prims flop phash index
    (t, fun j => if j = index then some t else st j)

/-- A cache is coherent when every stored tile equals the tile function
of the context's previous block hash (the invariant of §3 of the spec:
tiles are only ever stored by peach_gen itself). -/
def Coherent (prims : HashPrims) (flop : FlopFn) (phash : List Nat)
    (st : TileCache) : Prop :=
  ∀ i t, st i = some t → t = peach_tile prims flop phash i

/-- The 8-hop jump loop of peach_generate, threading the map state. -/
def walkS (prims : HashPrims) (flop : FlopFn) (phash nonce : List Nat) :
    Nat → Nat → List Nat → TileCache → Nat × List Nat × TileCache
  | 0, mario, tile, st => (mario, tile, st)
  | n + 1, mario, tile, st =>
    let m' := peach_next prims flop mario tile nonce
    let step := peach_genS prims flop phash st m'
    walkS prims flop phash nonce n m' step.1 step.2

/-- The 8-hop jump loop of peach_checkhash: no map is present, so every
tile is regenerated into the scratch tile. -/
def walkPure (prims : HashPrims) (flop : FlopFn) (phash nonce : List Nat) :
    Nat → Nat → List Nat → Nat × List Nat
  | 0, mario, tile => (mario, tile)
  | n + 1, mario, tile =>
    let m' := peach_next prims flop mario tile nonce
    walkPure prims flop phash nonce n m' (peach_tile prims flop phash m')

/-- Mario's initial position as computed in peach_generate (lines
570-576): bt_hash[0], multiplied by bt_hash[1..31] with 32-bit wrap,
masked into the map. -/
def marioOfGenerate (bt_hash : List Nat) : Nat :=
  ((List.range 31).foldl (fun m i => m * bt_hash.getD (i + 1) 0 % 4294967296)
    (bt_hash.getD 0 0)) &&& (PEACH_MAP - 1)

/-- Mario's initial position as computed in peach_checkhash (lines
631-634), written out separately to mirror the duplicated source loop. -/
def marioOfCheck (bt_hash : List Nat) : Nat :=
  ((List.range 31).foldl (fun m i => m * bt_hash.getD (i + 1) 0 % 4294967296)
    (bt_hash.getD 0 0)) &&& (PEACH_MAP - 1)

/-- Core of one peach_generate attempt, at the attempt whose advanced
nonce is the given 32 bytes (the haiku drawing itself is the external
PRNG feeding trigg_gen): bt_hash is the SHA-256 of the first 92 trailer
bytes followed by the nonce; then mario, the 8-hop walk over the cached
map, the final SHA-256 of bt_hash ++ tile, and the difficulty evaluation
with the low byte of the u32 difficulty field (the (uint8_t) cast of
P->diff).  peach_generate returns 1 and emits the nonce into out exactly
when the evaluation succeeds. -/
def peach_generate (prims : HashPrims) (flop : FlopFn) (bt : List Nat)
    (nonce : List Nat) (st : TileCache) : Bool × TileCache :=
  let bt_hash := prims.sha256 (bt.take 92 ++ nonce)
  let mario := marioOfGenerate bt_hash
  let step0 := peach_genS prims flop (bt.take 32) st mario
  let w := walkS prims flop (bt.take 32) nonce PEACH_JUMP mario step0.1 step0.2
  let hash := prims.sha256 (bt_hash ++ w.2.1)
  (trigg_eval hash (u32at bt 56), w.2.2)

/-- Final 32-byte hash computed by peach_checkhash once both syntax
checks have passed: SHA-256 of the first 124 trailer bytes, mario, the
8-hop walk with tile regeneration, and SHA-256 of bt_hash ++ tile. -/
def peachCheckFinalHash (prims : HashPrims) (flop : FlopFn)
    (bt : List Nat) : List Nat :=
  let bt_hash := prims.sha256 (bt.take 124)
  let mario := marioOfCheck bt_hash
  let tile0 := peach_tile prims flop (bt.take 32) mario
  let w := walkPure prims flop (bt.take 32) ((bt.drop 92).take 32)
    PEACH_JUMP mario tile0
  prims.sha256 (bt_hash ++ w.2)

/-- peach_checkhash: the two 16-byte nonce halves must pass trigg_syntax
(else return 0 with nothing written); then the final hash is computed,
copied to out when requested (regardless of the evaluation), and the
difficulty evaluation against bt->difficulty[0] is returned. -/
def peach_checkhash (prims : HashPrims) (flop : FlopFn) (bt : List Nat)
    (outReq : Bool) : Bool × Option (List Nat) :=
  if trigg_syntax ((bt.drop 92).take 16) = false then (false, none)
  else if trigg_syntax ((bt.drop 108).take 16) = false then (false, none)
  else
    let hash := peachCheckFinalHash prims flop bt
    (trigg_eval hash (bt.getD 56 0), if outReq then some hash else none)

/-! ## Peach context lifecycle (peach_solve, peach_free) -/

/-- PEACH_ALGO context: trailer reference, map and cache allocations,
scratch tile, nonce quadwords and difficulty. -/
structure PEACH_ALGO where
  bt : Option (List Nat)
  map : Option (List Nat)
  cache : Option (List Nat)
  tile : List Nat
  nonce : List Nat
  diff : Nat
deriving Repr, DecidableEq

/-- The all-zero context produced by memset(P, 0, sizeof(PEACH_ALGO)). -/
def peachZeroCtx : PEACH_ALGO :=
  ⟨none, none, none, List.replicate 1024 0, List.replicate 32 0, 0⟩

/-- peach_free: release whichever of map and cache is held (reported in
the second component) and reset both pointers to null. -/
def peach_free (P : PEACH_ALGO) : PEACH_ALGO × (Bool × Bool) :=
  ({ P with map := none, cache := none }, (P.map.isSome, P.cache.isSome))

/-- peach_solve: zero the context, acquire map and cache (the two Option
arguments model the malloc results), and on success zero both buffers,
record the trailer reference and difficulty, and draw the initial haiku
into nonce[2..4]; on any acquisition failure call peach_free and return
1.  Returns the int code, the context, and the (map, cache) free report
of the peach_free call (false, false when it was not called). -/
def peach_solve (allocMap allocCache : Option (List Nat))
    (rands : List Nat) (bt : List Nat) : Nat × PEACH_ALGO × (Bool × Bool) :=
  let P1 : PEACH_ALGO := { peachZeroCtx with map := allocMap, cache := allocCache }
  match allocMap, allocCache with
  | some m, some c =>
    (0, { P1 with
      map := some (m.map (fun _ => 0)),
      cache := some (c.map (fun _ => 0)),
      bt := some bt,
      diff := u32at bt 56,
      nonce := List.replicate 16 0 ++
        (trigg_gen rands).getD (List.replicate 16 0) }, (false, false))
  | _, _ =>
    let free := peach_free P1
    (1, free.1, free.2)

/-! ## Peach theorems -/

theorem dflopGo_no_txf (flop : FlopFn) (index : Nat) :
    ∀ (n : Nat) (data : List Nat), data.length ≤ n → ∀ op,
      (dflopGo flop index false op data).2 = data := by
  intro n
  induction n with
  | zero =>
    intro data h op
    cases data with
    | nil => rfl
    | cons a as => simp at h
  | succ m ih =>
    intro data h op
    rcases data with _ | ⟨a, _ | ⟨b, _ | ⟨c, _ | ⟨d, rest⟩⟩⟩⟩
    · rfl
    · rfl
    · rfl
    · rfl
    · simp only [dflopGo, cond_false]
      have hrest := ih rest
        (by simp only [List.length_cons] at h; omega)
        (dflopLane flop index op a b c d).1
      rw [hrest]
      rfl

/-- Claim C6: nighthash with tx unset leaves the input buffer bitwise
unchanged: dflop works on a local copy of each lane, dmemtx is skipped,
and the hash primitives are functions of the bytes (they only read). -/
theorem nighthash_no_transform_preserves_input (prims : HashPrims)
    (flop : FlopFn) (data : List Nat) (index : Nat) (hashindex : Bool) :
    (peach_nighthash prims flop data index hashindex false).2 = data := by
  simp only [peach_nighthash, peach_dflop, cond_false]
  exact dflopGo_no_txf flop index data.length data (Nat.le_refl _) 0

theorem land_pow20 (x : Nat) : x &&& (PEACH_MAP - 1) = x % 1048576 := by
  have h := Nat.and_pow_two_sub_one_eq_mod x 20
  norm_num [PEACH_MAP] at h ⊢
  exact h

/-- Claim C7: the starting index mario is computed identically in
peach_generate and peach_checkhash: bt_hash[0] zero-extended, multiplied
in turn by bt_hash[1] through bt_hash[31] with 32-bit wrapping, and
finally reduced modulo 1048576 (the mask with PEACH_MAP - 1 = 0xFFFFF
equals the mod). -/
theorem mario_same_in_generate_and_check (h : List Nat) :
    marioOfGenerate h = marioOfCheck h ∧
      marioOfGenerate h =
        ((List.range 31).foldl
          (fun m i => m * h.getD (i + 1) 0 % 4294967296) (h.getD 0 0)) % 1048576 := by
  refine ⟨rfl, ?_⟩
  unfold marioOfGenerate
  exact land_pow20 _

/-- Claim C8: when either allocation fails, peach_solve frees whichever
buffer was acquired (the free report names exactly the held buffers),
leaves the context fully zeroed (null map and cache, no trailer
reference, zero difficulty, zero nonce), and returns the non-zero code
1; on success it returns 0 with both buffers allocated and zeroed. -/
theorem peach_solve_alloc_failure_no_partial_state (am ac : Option (List Nat))
    (rands bt : List Nat) :
    ((am = none ∨ ac = none) →
      peach_solve am ac rands bt = (1, peachZeroCtx, (am.isSome, ac.isSome))) ∧
    (∀ m c, am = some m → ac = some c →
      peach_solve am ac rands bt =
        (0, { peachZeroCtx with
            map := some (m.map (fun _ => 0)),
            cache := some (c.map (fun _ => 0)),
            bt := some bt,
            diff := u32at bt 56,
            nonce := List.replicate 16 0 ++
              (trigg_gen rands).getD (List.replicate 16 0) }, (false, false))) := by
  constructor
  · intro hfail
    cases am with
    | none => cases ac <;> rfl
    | some m =>
      cases ac with
      | none => rfl
      | some c =>
        rcases hfail with hf | hf <;> simp at hf
  · intro m c ham hac
    subst ham
    subst hac
    rfl

/-- Witness for the claim C8 theorem: map allocation fails while the
cache allocation succeeds; solve reports code 1, a fully zeroed context,
and frees exactly the cache. -/
theorem peach_solve_alloc_failure_no_partial_state_witness :
    peach_solve none (some [5]) [] [] = (1, peachZeroCtx, (false, true)) :=
  (peach_solve_alloc_failure_no_partial_state none (some [5]) [] []).1
    (Or.inl rfl)

/-- Claim C9: when either nonce half fails trigg_syntax, peach_checkhash
returns 0 without writing to out and without computing any hash (its
result does not depend on the hash primitives or the float operation);
when both halves pass and out is requested, the final hash is written to
out regardless of the difficulty evaluation, whose result is returned. -/
theorem peach_checkhash_shortcircuit_and_out (prims prims' : HashPrims)
    (flop flop' : FlopFn) (bt : List Nat) :
    (( trigg_syntax ((bt.drop 92).take 16) = false ∨
        trigg_syntax ((bt.drop 108).take 16) = false) →
      (∀ oreq, peach_checkhash prims flop bt oreq = (false, none)) ∧
        peach_checkhash prims flop bt true = peach_checkhash prims' flop' bt true) ∧
    ( trigg_syntax ((bt.drop 92).take 16) = true →
       trigg_syntax ((bt.drop 108).take 16) = true →
      (peach_checkhash prims flop bt true).2 =
          some (peachCheckFinalHash prims flop bt) ∧
        (peach_checkhash prims flop bt true).1 =
          trigg_eval (peachCheckFinalHash prims flop bt) (bt.getD 56 0)) := by
  constructor
  · intro hfail
    by_cases h1 : trigg_syntax ((bt.drop 92).take 16) = false
    · constructor
      · intro oreq
        simp [peach_checkhash, h1]
      · simp [peach_checkhash, h1]
    · have h1t : trigg_syntax ((bt.drop 92).take 16) = true := by
        revert h1
        cases trigg_syntax ((bt.drop 92).take 16) <;> simp
      have h2 : trigg_syntax ((bt.drop 108).take 16) = false := by
        rcases hfail with hf | hf
        · exact absurd hf h1
        · exact hf
      constructor
      · intro oreq
        simp [peach_checkhash, h1t, h2]
      · simp [peach_checkhash, h1t, h2]
  · intro h1 h2
    constructor <;> simp [peach_checkhash, h1, h2]

/-- Trivial instantiations of the abstract primitives, used only to
exercise theorems at concrete inputs. -/
def trivialPrims : HashPrims :=
  ⟨fun k m => k ++ m, fun m => m.take 20, fun m => m.take 32,
    fun m => m.reverse, fun m => m.drop 1, fun m => m.take 16,
    fun m => 0 :: m.take 15⟩

/-- Trivial float lane operation, used only to exercise theorems. -/
def trivialFlop : FlopFn :=
  fun lane sel operand index => [sel, operand % 256, index % 256, lane.getD 0 0]

/-- Witness for the claim C9 theorem: the all-zero trailer has an
all-zero nonce, whose first half fails trigg_syntax, so checkhash
returns 0 and writes nothing even when out is requested. -/
theorem peach_checkhash_shortcircuit_and_out_witness :
    peach_checkhash trivialPrims trivialFlop (List.replicate 160 0) true =
      (false, none) :=
  ((peach_checkhash_shortcircuit_and_out trivialPrims trivialPrims
    trivialFlop trivialFlop (List.replicate 160 0)).1
      (Or.inl (by decide))).1 true

/-! ## peach_checkhash against peach_generate (claim C1) -/

theorem genS_coherent (prims : HashPrims) (flop : FlopFn)
    (phash : List Nat) (st : TileCache) (i : Nat)
    (hco : Coherent prims flop phash st) :
    (peach_genS prims flop phash st i).1 = peach_tile prims flop phash i ∧
      Coherent prims flop phash (peach_genS prims flop phash st i).2 := by
  constructor
  · cases hsi : st i with
    | none => simp only [peach_genS, hsi]
    | some t =>
      simp only [peach_genS, hsi]
      exact hco i t hsi
  · cases hsi : st i with
    | none =>
      intro j u hj
      simp only [peach_genS, hsi] at hj
      by_cases hji : j = i
      · subst hji
        rw [if_pos rfl] at hj
        injection hj with hj'
        exact hj'.symm
      · rw [if_neg hji] at hj
        exact hco j u hj
    | some t =>
      intro j u hj
      simp only [peach_genS, hsi] at hj
      exact hco j u hj

theorem walkS_eq_walkPure (prims : HashPrims) (flop : FlopFn)
    (phash nonce : List Nat) :
    ∀ (n mario : Nat) (tile : List Nat) (st : TileCache),
      Coherent prims flop phash st →
      (walkS prims flop phash nonce n mario tile st).1 =
          (walkPure prims flop phash nonce n mario tile).1 ∧
        (walkS prims flop phash nonce n mario tile st).2.1 =
          (walkPure prims flop phash nonce n mario tile).2 ∧
        Coherent prims flop phash
          (walkS prims flop phash nonce n mario tile st).2.2 := by
  intro n
  induction n with
  | zero =>
    intro mario tile st hco
    exact ⟨rfl, rfl, hco⟩
  | succ k ih =>
    intro mario tile st hco
    have hg := genS_coherent prims flop phash st
      (peach_next prims flop mario tile nonce) hco
    simp only [walkS, walkPure]
    rw [hg.1]
    exact ih _ _ _ hg.2

theorem trigg_eval_mod256 (h : List Nat) (d : Nat) :
    trigg_eval h d = trigg_eval h (d % 256) := by
  have hm : d % 256 % 256 = d % 256 := Nat.mod_mod_of_dvd d dvd_rfl
  simp only [trigg_eval, hm]

theorem u32at_mod256 (l : List Nat) (i : Nat) :
    u32at l i % 256 = l.getD i 0 % 256 := by
  unfold u32at
  omega

/-- The two bt_hash inputs agree: the first 124 trailer bytes are the
first 92 bytes followed by the nonce, because the nonce occupies trailer
bytes 92..124. -/
theorem take124_eq_take92_append_nonce (bt : List Nat) :
    bt.take 124 = bt.take 92 ++ (bt.drop 92).take 32 := by
  rw [show (124 : Nat) = 92 + 32 from rfl, List.take_add]

/-- Claim C1: peach_checkhash accepts a trailer exactly when both
16-byte nonce halves pass trigg_syntax and a peach_generate attempt
whose advanced nonce equals the trailer's nonce evaluates the final hash
successfully against the difficulty: the bt_hash that check computes
over the first 124 trailer bytes equals the bt_hash that generate
computes over the first 92 bytes followed by the 32-byte nonce, the
walks coincide for any coherent solver cache, and the (uint8_t) cast of
the u32 difficulty equals the difficulty byte read by check. -/
theorem peach_check_iff_generate_emits (prims : HashPrims) (flop : FlopFn)
    (bt : List Nat) (st : TileCache)
    (hco : Coherent prims flop (bt.take 32) st) :
    ((peach_checkhash prims flop bt false).1 = true ↔
      ( trigg_syntax ((bt.drop 92).take 16) = true ∧
        trigg_syntax ((bt.drop 108).take 16) = true ∧
        (peach_generate prims flop bt ((bt.drop 92).take 32) st).1 = true)) := by
  by_cases h1 : trigg_syntax ((bt.drop 92).take 16) = true
  · by_cases h2 : trigg_syntax ((bt.drop 108).take 16) = true
    · -- both syntax checks pass: the two pipelines compute the same hash
      have hgen : (peach_generate prims flop bt ((bt.drop 92).take 32) st).1 =
          trigg_eval (peachCheckFinalHash prims flop bt) (u32at bt 56) := by
        have hg := genS_coherent prims flop (bt.take 32) st
          (marioOfCheck (prims.sha256 (bt.take 124))) hco
        have hw := walkS_eq_walkPure prims flop (bt.take 32)
          ((bt.drop 92).take 32) PEACH_JUMP
          (marioOfCheck (prims.sha256 (bt.take 124)))
          (peach_genS prims flop (bt.take 32) st
            (marioOfCheck (prims.sha256 (bt.take 124)))).1
          (peach_genS prims flop (bt.take 32) st
            (marioOfCheck (prims.sha256 (bt.take 124)))).2 hg.2
        have hgcheck : marioOfGenerate (prims.sha256 (bt.take 124)) =
          marioOfCheck (prims.sha256 (bt.take 124)) := rfl
        simp only [peach_generate, peachCheckFinalHash]
        rw [← take124_eq_take92_append_nonce bt, hgcheck, hw.2.1, hg.1]
      have heq : (peach_checkhash prims flop bt false).1 =
          trigg_eval (peachCheckFinalHash prims flop bt) (bt.getD 56 0) := by
        simp [peach_checkhash, h1, h2]
      have hdiff : trigg_eval (peachCheckFinalHash prims flop bt) (u32at bt 56) =
          trigg_eval (peachCheckFinalHash prims flop bt) (bt.getD 56 0) := by
        rw [trigg_eval_mod256 _ (u32at bt 56), u32at_mod256,
          ← trigg_eval_mod256]
      rw [heq, hgen, hdiff]
      simp [h1, h2]
    · have h2f : trigg_syntax ((bt.drop 108).take 16) = false := by
        revert h2
        cases trigg_syntax ((bt.drop 108).take 16) <;> simp
      simp [peach_checkhash, h1, h2f, h2]
  · have h1f : trigg_syntax ((bt.drop 92).take 16) = false := by
      revert h1
      cases trigg_syntax ((bt.drop 92).take 16) <;> simp
    simp [peach_checkhash, h1f, h1]

/-- The empty verifier cache. -/
def emptyCache : TileCache :=
  fun _ => none

theorem coherent_empty (prims : HashPrims) (flop : FlopFn)
    (phash : List Nat) : Coherent prims flop phash emptyCache := by
  intro i t h
  simp [emptyCache] at h

/-- Witness for the claim C1 theorem at the all-zero trailer with an
empty (hence coherent) cache. -/
theorem peach_check_iff_generate_emits_witness :
    ((peach_checkhash trivialPrims trivialFlop (List.replicate 160 0) false).1 = true ↔
      ( trigg_syntax (((List.replicate 160 0).drop 92).take 16) = true ∧
        trigg_syntax (((List.replicate 160 0).drop 108).take 16) = true ∧
        (peach_generate trivialPrims trivialFlop (List.replicate 160 0)
          (((List.replicate 160 0).drop 92).take 32) emptyCache).1 = true)) :=
  peach_check_iff_generate_emits trivialPrims trivialFlop
    (List.replicate 160 0) emptyCache
    (coherent_empty trivialPrims trivialFlop ((List.replicate 160 0).take 32))

end Mochimo
